import Mathlib

set_option maxRecDepth 40000

/-!
Shallow embedding of the `rprof` read profiler (package `rprof`):
the sample accumulator (`Rprof`: Start / Stop / recordSample), the
power-of-two size bucketing (`nextPowerOfTwo`), the profile builder
(`profileBuilder.build`, `addMappingEntry`, `addString`) and the thin
read adapters.  Go's `map[sampleKey][2]int64` is modelled as an
association list in iteration order; a Go mutex-protected method call
is one atomic step, so concurrent executions are modelled as arbitrary
serializations (lists of operations).
-/

namespace Rprof

/-- Source: `sampleKey` — fixed `[128]uintptr` array of addresses, the
size-bucket exponent and the number of valid address slots.  The
`locations` list always has length 128 by construction (zero padded),
mirroring Go struct equality over the whole array. -/
structure sampleKey where
  locations : List Nat
  sizeBucketPower : Nat
  numLocations : Nat
deriving DecidableEq, Repr

/-- Zero-pad a list on the right to length `n` (the `[128]uintptr{}`
array that `runtime.Callers` partially fills). -/
def padTo (n : Nat) (l : List Nat) : List Nat :=
  l ++ List.replicate (n - l.length) 0

/-- Source: `nextPowerOfTwo`'s loop body: `for i := 0; i < 63; i++ {
if 1<<i >= input { return uint8(i) } }; return 63`, with `fuel`
counting the remaining iterations (`fuel = 63 - i`). -/
def nextPowLoop (input : Int) : Nat → Nat → Nat
  | _, 0 => 63
  | i, fuel + 1 => if input ≤ 2 ^ i then i else nextPowLoop input (i + 1) fuel

/-- Source: `nextPowerOfTwo(input int) uint8` — the smallest exponent
`i < 63` with `1<<i >= input`, else 63. -/
def nextPowerOfTwo (input : Int) : Nat :=
  nextPowLoop input 0 63

/-- The sample map `map[sampleKey][2]int64`, as an association list in
iteration order; counters are the `[2]int64` pair (reads, bytes). -/
def Samples := List (sampleKey × Int × Int)

instance : DecidableEq Samples := by unfold Samples; infer_instance

/-- Go map read `p.samples[k]`: the zero value `[2]int64{0,0}` when the
key is absent. -/
def lookupSamples : List (sampleKey × Int × Int) → sampleKey → Int × Int
  | [], _ => (0, 0)
  | (k, v) :: rest, key => if k = key then v else lookupSamples rest key

/-- Go map write `p.samples[k] = v`: replace in place or append. -/
def setSample : List (sampleKey × Int × Int) → sampleKey → Int × Int → List (sampleKey × Int × Int)
  | [], key, v => [(key, v)]
  | (k, w) :: rest, key, v =>
      if k = key then (key, v) :: rest else (k, w) :: setSample rest key v

/-- Source: `Rprof` — `startTime` (0 = not running) and the live sample
map.  The mutex is represented by treating each method as one atomic
step. -/
structure State where
  startTime : Int
  samples : List (sampleKey × Int × Int)
deriving Repr

/-- Source: `NewProfiler()` returns `&Rprof{}` (zero value: `startTime
= 0`, nil map). -/
def newProfiler : State := { startTime := 0, samples := [] }

/-- The two domain errors of the package. -/
inductive Err where
  | alreadyStarted
  | notStarted
deriving DecidableEq, Repr

/-- Source: `Rprof.Start` — error if `startTime != 0`, otherwise set
`startTime` to the current time and install a fresh empty map.  `now`
is the value of `time.Now().UnixNano()`. -/
def start (p : State) (now : Int) : Option Err × State :=
  if p.startTime ≠ 0 then (some .alreadyStarted, p)
  else (none, { startTime := now, samples := [] })

/-- Source: the key built inside `recordSample`: the 128-slot array
filled by `runtime.Callers` (`numRead` entries), plus the bucket. -/
def mkKey (stack : List Nat) (size : Int) : sampleKey :=
  { locations := padTo 128 (stack.take 128)
    sizeBucketPower := nextPowerOfTwo size
    numLocations := min stack.length 128 }

/-- Source: `Rprof.recordSample(size int)` — no-op when not running;
otherwise look the key up (zero pair if absent), bump the read count by
1 and the byte count by `size`, and store it back.  `stack` is the raw
stack captured by `runtime.Callers`. -/
def recordSample (p : State) (size : Int) (stack : List Nat) : State :=
  if p.startTime = 0 then p
  else
    let k := mkKey stack size
    let s := lookupSamples p.samples k
    { p with samples := setSample p.samples k (s.1 + 1, s.2 + size) }

end Rprof

namespace Rprof

/-- A `proto.ValueType` (string-table indices). -/
structure ValueType where
  type : Int
  unit : Int
deriving DecidableEq, Repr

/-- A `proto.Mapping` entry (`filename`/`buildId` are string-table
indices). -/
structure Mapping where
  id : Nat
  memoryStart : Nat
  memoryLimit : Nat
  fileOffset : Nat
  filename : Int
  buildId : Int
deriving DecidableEq, Repr

/-- A `proto.Location` entry. -/
structure Location where
  id : Nat
  mappingIndex : Nat
  address : Nat
deriving DecidableEq, Repr

/-- A `proto.Label` entry. -/
structure Label where
  key : Int
  num : Int
deriving DecidableEq, Repr

/-- A `proto.Sample` entry. -/
structure Sample where
  locationIndex : List Nat
  value : List Int
  label : List Label
deriving DecidableEq, Repr

/-- The parts of `proto.Profile` the package populates. -/
structure Profile where
  stringTable : List String
  durationNanos : Int
  timeNanos : Int
  period : Int
  periodType : ValueType
  sampleType : List ValueType
  mapping : List Mapping
  location : List Location
  sample : List Sample
deriving DecidableEq, Repr

/-- Two's-complement wraparound to `int64` (Go's variable shift
`1 << sizeBucketPower` wraps at 64 bits). -/
def i64 (n : Int) : Int := (n + 2 ^ 63) % 2 ^ 64 - 2 ^ 63

/-- Source: `profileBuilder.addString` — append and return the new
index. -/
def addString (p : Profile) (s : String) : Profile × Int :=
  let st := p.stringTable ++ [s]
  ({ p with stringTable := st }, (st.length : Int) - 1)

/-- Source: `profileBuilder.addMappingEntry` — append a mapping with id
`len+1`; a fake entry gets `MemoryStart 0`, `MemoryLimit 1<<63` and
empty-string indices, a real one interns `file` and `buildID`. -/
def addMappingEntry (p : Profile) (lo hi offset : Nat) (file buildID : String)
    (fake : Bool) : Profile :=
  let nextIdx := p.mapping.length + 1
  if fake then
    { p with mapping := p.mapping ++
        [{ id := nextIdx, memoryStart := 0, memoryLimit := 2 ^ 63,
           fileOffset := 0, filename := 0, buildId := 0 }] }
  else
    let r1 := addString p file
    let r2 := addString r1.1 buildID
    { r2.1 with mapping := r2.1.mapping ++
        [{ id := nextIdx, memoryStart := lo, memoryLimit := hi,
           fileOffset := offset, filename := r1.2, buildId := r2.2 }] }

/-- Source: `profileBuilder.addMapping`. -/
def addMapping (p : Profile) (lo hi offset : Nat) (file buildID : String) : Profile :=
  addMappingEntry p lo hi offset file buildID false

/-- A code-region mapping known to the platform integration. -/
structure KnownMapping where
  lo : Nat
  hi : Nat
  offset : Nat
  file : String
  buildID : String
deriving Repr

/-- Modelled from the spec: `profileBuilder.readMapping` — the
platform-specific mapping reader invoked by `newProfileBuilder` is not
among the sources; per the spec it adds a mapping entry for each known
code region and, when none are known, one synthetic (fake) mapping
covering the full address space. -/
def readMapping (p : Profile) (known : List KnownMapping) : Profile :=
  if known.isEmpty then addMappingEntry p 0 0 0 "" "" true
  else known.foldl (fun acc m => addMapping acc m.lo m.hi m.offset m.file m.buildID) p

/-- Source: `newProfileBuilder` — the five reserved strings, period and
value-type metadata, then `readMapping`. -/
def newProfileBuilder (timestampNanos durationNanos : Int)
    (known : List KnownMapping) : Profile :=
  readMapping
    { stringTable := ["", "reads", "count", "read", "bytes"]
      durationNanos := durationNanos
      timeNanos := timestampNanos
      period := 1
      periodType := { type := 1, unit := 2 }
      sampleType := [{ type := 1, unit := 2 }, { type := 3, unit := 4 }]
      mapping := []
      location := []
      sample := [] }
    known

/-- Source: the linear scan in `build` resolving an address to the
first mapping whose `[MemoryStart, MemoryLimit)` contains it, returning
the 1-indexed position (0 when none matches); `i` is the current
index. -/
def findMappingFrom (ms : List Mapping) (addr : Nat) (i : Nat) : Nat :=
  match ms with
  | [] => 0
  | m :: rest =>
      if m.memoryStart ≤ addr ∧ addr < m.memoryLimit then i + 1
      else findMappingFrom rest addr (i + 1)

/-- The scan started at index 0. -/
def findMapping (ms : List Mapping) (addr : Nat) : Nat := findMappingFrom ms addr 0

/-- The address → location-id table (`locIdx map[uintptr]uint64`). -/
def lookupLoc : List (Nat × Nat) → Nat → Option Nat
  | [], _ => none
  | (a, i) :: rest, addr => if a = addr then some i else lookupLoc rest addr

/-- Source: the per-address body of `build`'s inner loop — reuse the id
from `locIdx`, or allocate id `len(locIdx)+1`, resolve a mapping and
append a new `Location`. -/
def addLoc (st : List (Nat × Nat) × Profile) (loc : Nat) :
    (List (Nat × Nat) × Profile) × Nat :=
  match lookupLoc st.1 loc with
  | some idx => (st, idx)
  | none =>
      let idx := st.1.length + 1
      let mappingId := findMapping st.2.mapping loc
      ((st.1 ++ [(loc, idx)],
        { st.2 with location := st.2.location ++
            [{ id := idx, mappingIndex := mappingId, address := loc }] }), idx)

/-- Source: the inner loop `for _, loc := range sampleKey.locations`,
collecting the per-address ids into `locs` in order. -/
def addLocs (st : List (Nat × Nat) × Profile) : List Nat →
    (List (Nat × Nat) × Profile) × List Nat
  | [] => (st, [])
  | loc :: rest =>
      let r := addLoc st loc
      let rr := addLocs r.1 rest
      (rr.1, r.2 :: rr.2)

/-- Source: one iteration of `build`'s outer loop — collect the ids of
all 128 slots of `sampleKey.locations` and append one `Sample` with the
counters and the size-bucket label (`Key: 4`, `Num: 1 << power`). -/
def buildStep (acc : List (Nat × Nat) × Profile) (kv : sampleKey × Int × Int) :
    List (Nat × Nat) × Profile :=
  let r := addLocs acc kv.1.locations
  (r.1.1,
   { r.1.2 with sample := r.1.2.sample ++
       [{ locationIndex := r.2, value := [kv.2.1, kv.2.2],
          label := [{ key := 4, num := i64 (2 ^ kv.1.sizeBucketPower) }] }] })

/-- Source: `profileBuilder.build` — fold the outer loop over the
sample map in iteration order, starting from an empty `locIdx`. -/
def build (p : Profile) (samples : List (sampleKey × Int × Int)) : Profile :=
  (samples.foldl buildStep ([], p)).2

/-- Source: `Rprof.Stop` — error if not running, else detach the map,
clear `startTime`, and build the profile with the window metadata;
`now` is `time.Now().UnixNano()` read after the critical section. -/
def stop (p : State) (now : Int) (known : List KnownMapping) :
    Except Err Profile × State :=
  if p.startTime = 0 then (.error .notStarted, p)
  else
    (.ok (build (newProfileBuilder p.startTime (now - p.startTime) known) p.samples),
     { p with startTime := 0 })

/-- Source: `RprofReader.Read` (and `RprofReadCloser.Read`) — read from
the underlying reader, record the returned byte count, and pass
`(n, err)` through unchanged.  The underlying `Read`'s result is the
pair `(n, err)`; `stack` is the captured call stack; `ε` the error
type. -/
def readerRead {ε : Type} (p : State) (n : Int) (err : Option ε)
    (stack : List Nat) : (Int × Option ε) × State :=
  ((n, err), recordSample p n stack)

/-- Source: `RprofReaderAt.ReadAt` — identical flow; `off` is the
offset handed to the underlying reader, whose result is `(n, err)`. -/
def readerAtReadAt {ε : Type} (p : State) (off : Int) (n : Int) (err : Option ε)
    (stack : List Nat) : (Int × Option ε) × State :=
  ((n, err), recordSample p n stack)

/-- One serialized operation on the accumulator: every method runs
under the single mutex, so any concurrent execution is some
serialization of its critical sections. -/
inductive Op where
  | opStart (now : Int)
  | opStop (now : Int)
  | opRecord (size : Int) (stack : List Nat)

/-- Run a serialization, collecting each Stop's outcome (`some` profile
on success, `none` when it errored). -/
def runTrace (known : List KnownMapping) : State → List Op → State × List (Option Profile)
  | p, [] => (p, [])
  | p, .opStart now :: rest => runTrace known (start p now).2 rest
  | p, .opRecord size stack :: rest => runTrace known (recordSample p size stack) rest
  | p, .opStop now :: rest =>
      let r := stop p now known
      let res := runTrace known r.2 rest
      (res.1, r.1.toOption :: res.2)

/-- The effect of one running `recordSample` on the sample map. -/
def bump (m : List (sampleKey × Int × Int)) (size : Int) (stack : List Nat) :
    List (sampleKey × Int × Int) :=
  let k := mkKey stack size
  let s := lookupSamples m k
  setSample m k (s.1 + 1, s.2 + size)

/-- The sample map produced by a sequence of running records. -/
def aggregate (recs : List (Int × List Nat)) : List (sampleKey × Int × Int) :=
  recs.foldl (fun m r => bump m r.1 r.2) []

end Rprof

namespace Rprof

/-! ### Helper lemmas -/

/-- Loop invariant of `nextPowerOfTwo`: starting at index `i` with
`i + fuel = 63` and all earlier powers below `input`, every power below
the result is below `input`, and the result either satisfies the test
or is the fallback 63. -/
theorem nextPowLoop_spec (input : Int) :
    ∀ fuel i : Nat, i + fuel = 63 → (∀ j, j < i → 2 ^ j < input) →
      (∀ j, j < nextPowLoop input i fuel → 2 ^ j < input) ∧
      (input ≤ 2 ^ nextPowLoop input i fuel ∨ nextPowLoop input i fuel = 63) := by
  intro fuel
  induction fuel with
  | zero =>
      intro i hi hprev
      have hi63 : i = 63 := by omega
      subst hi63
      exact ⟨by simpa [nextPowLoop] using hprev, Or.inr rfl⟩
  | succ fuel ih =>
      intro i hi hprev
      by_cases h : input ≤ 2 ^ i
      · constructor
        · simpa [nextPowLoop, h] using hprev
        · left; simpa [nextPowLoop, h]
      · have hi' : (i + 1) + fuel = 63 := by omega
        have hprev' : ∀ j, j < i + 1 → 2 ^ j < input := by
          intro j hj
          rcases Nat.lt_succ_iff_lt_or_eq.mp hj with hj | hj
          · exact hprev j hj
          · subst hj; exact lt_of_not_le h
        have := ih (i + 1) hi' hprev'
        simpa [nextPowLoop, h] using this

theorem lookupSamples_setSample (m : List (sampleKey × Int × Int))
    (k : sampleKey) (v : Int × Int) : lookupSamples (setSample m k v) k = v := by
  induction m with
  | nil => simp [setSample, lookupSamples]
  | cons hd tl ih =>
      obtain ⟨k0, v0⟩ := hd
      by_cases h : k0 = k
      · simp [setSample, lookupSamples, h]
      · simp [setSample, lookupSamples, h, ih]

/-- A running `recordSample` only rewrites the sample map, via `bump`. -/
theorem recordSample_run (p : State) (size : Int) (stack : List Nat)
    (h : p.startTime ≠ 0) :
    recordSample p size stack = { p with samples := bump p.samples size stack } := by
  simp [recordSample, bump, h]

/-- Folding running records over a state only folds `bump` over its map. -/
theorem foldl_recordSample_run (recs : List (Int × List Nat)) :
    ∀ p : State, p.startTime ≠ 0 →
      recs.foldl (fun st r => recordSample st r.1 r.2) p
        = { p with samples := recs.foldl (fun m r => bump m r.1 r.2) p.samples } := by
  induction recs with
  | nil => intro p _; simp
  | cons r rest ih =>
      intro p h
      have h' : (recordSample p r.1 r.2).startTime = p.startTime := by
        by_cases hz : p.startTime = 0
        · exact absurd hz h
        · rw [recordSample_run p r.1 r.2 h]
      simp only [List.foldl_cons]
      rw [ih (recordSample p r.1 r.2) (h' ▸ h), recordSample_run p r.1 r.2 h]

/-- Bumping the same key `n` more times adds `n` reads and `n * size`
bytes to a singleton map at that key. -/
theorem bump_replicate (size : Int) (stack : List Nat) :
    ∀ (n : Nat) (a b : Int),
      (List.replicate n (size, stack)).foldl (fun m r => bump m r.1 r.2)
          [(mkKey stack size, (a, b))]
        = [(mkKey stack size, (a + n, b + n * size))] := by
  intro n
  induction n with
  | zero => intro a b; simp
  | succ n ih =>
      intro a b
      have hb : bump [(mkKey stack size, (a, b))] size stack
          = [(mkKey stack size, (a + 1, b + size))] := by
        simp [bump, lookupSamples, setSample]
      rw [List.replicate_succ, List.foldl_cons]
      show (List.replicate n (size, stack)).foldl (fun m r => bump m r.1 r.2)
          (bump [(mkKey stack size, (a, b))] size stack) = _
      rw [hb, ih (a + 1) (b + size)]
      simp only [List.cons.injEq, Prod.mk.injEq, and_true, true_and]
      push_cast
      constructor <;> ring

/-- Aggregating `n + 1` identical records yields the singleton map with
count `n + 1` and bytes `(n + 1) * size`. -/
theorem aggregate_replicate (size : Int) (stack : List Nat) (n : Nat) :
    aggregate (List.replicate (n + 1) (size, stack))
      = [(mkKey stack size, ((n : Int) + 1, ((n : Int) + 1) * size))] := by
  have h0 : bump [] size stack = [(mkKey stack size, (1, size))] := by
    simp [bump, lookupSamples, setSample]
  rw [aggregate, List.replicate_succ, List.foldl_cons]
  show (List.replicate n (size, stack)).foldl (fun m r => bump m r.1 r.2)
      (bump [] size stack) = _
  rw [h0, bump_replicate size stack n 1 size]
  simp only [List.cons.injEq, Prod.mk.injEq, and_true, true_and]
  constructor <;> ring

end Rprof

namespace Rprof

theorem addLoc_sample (st : List (Nat × Nat) × Profile) (loc : Nat) :
    ((addLoc st loc).1).2.sample = st.2.sample := by
  unfold addLoc
  cases lookupLoc st.1 loc <;> simp

theorem addLoc_mapping (st : List (Nat × Nat) × Profile) (loc : Nat) :
    ((addLoc st loc).1).2.mapping = st.2.mapping := by
  unfold addLoc
  cases lookupLoc st.1 loc <;> simp

theorem addLocs_sample (locs : List Nat) :
    ∀ st : List (Nat × Nat) × Profile,
      ((addLocs st locs).1).2.sample = st.2.sample := by
  induction locs with
  | nil => intro st; simp [addLocs]
  | cons loc rest ih =>
      intro st
      simp only [addLocs]
      rw [ih (addLoc st loc).1, addLoc_sample]

theorem addLocs_mapping (locs : List Nat) :
    ∀ st : List (Nat × Nat) × Profile,
      ((addLocs st locs).1).2.mapping = st.2.mapping := by
  induction locs with
  | nil => intro st; simp [addLocs]
  | cons loc rest ih =>
      intro st
      simp only [addLocs]
      rw [ih (addLoc st loc).1, addLoc_mapping]

theorem buildStep_sample (acc : List (Nat × Nat) × Profile)
    (kv : sampleKey × Int × Int) :
    (buildStep acc kv).2.sample
      = acc.2.sample ++
        [{ locationIndex := (addLocs acc kv.1.locations).2,
           value := [kv.2.1, kv.2.2],
           label := [{ key := 4, num := i64 (2 ^ kv.1.sizeBucketPower) }] }] := by
  simp only [buildStep]
  rw [addLocs_sample]

/-- The sample entries appended by `build` carry, in iteration order,
exactly the counter pairs and bucket labels of the sample map. -/
theorem foldl_buildStep_values (l : List (sampleKey × Int × Int)) :
    ∀ acc : List (Nat × Nat) × Profile,
      ((l.foldl buildStep acc).2.sample).map (fun s => (s.value, s.label))
        = (acc.2.sample.map fun s => (s.value, s.label))
          ++ l.map (fun kv =>
              ([kv.2.1, kv.2.2],
               [{ key := 4, num := i64 (2 ^ kv.1.sizeBucketPower) : Label }])) := by
  induction l with
  | nil => intro acc; simp
  | cons kv rest ih =>
      intro acc
      simp only [List.foldl_cons, List.map_cons]
      rw [ih (buildStep acc kv)]
      rw [buildStep_sample]
      simp

theorem build_values (p : Profile) (samples : List (sampleKey × Int × Int)) :
    (build p samples).sample.map (fun s => (s.value, s.label))
      = (p.sample.map fun s => (s.value, s.label))
        ++ samples.map (fun kv =>
            ([kv.2.1, kv.2.2],
             [{ key := 4, num := i64 (2 ^ kv.1.sizeBucketPower) : Label }])) := by
  unfold build
  rw [foldl_buildStep_values]

theorem addMappingEntry_sample (p : Profile) (lo hi offset : Nat)
    (file buildID : String) (fake : Bool) :
    (addMappingEntry p lo hi offset file buildID fake).sample = p.sample := by
  unfold addMappingEntry
  cases fake <;> simp [addString]

theorem foldl_addMapping_sample (known : List KnownMapping) :
    ∀ p : Profile,
      (known.foldl (fun acc m => addMapping acc m.lo m.hi m.offset m.file m.buildID) p).sample
        = p.sample := by
  induction known with
  | nil => intro p; simp
  | cons m rest ih =>
      intro p
      simp only [List.foldl_cons]
      rw [ih]
      simp [addMapping, addMappingEntry_sample]

theorem readMapping_sample (p : Profile) (known : List KnownMapping) :
    (readMapping p known).sample = p.sample := by
  unfold readMapping
  by_cases h : known.isEmpty
  · simp [h, addMappingEntry_sample]
  · simp only [h, if_false]
    exact foldl_addMapping_sample known p

theorem newProfileBuilder_sample (ts dur : Int) (known : List KnownMapping) :
    (newProfileBuilder ts dur known).sample = [] := by
  unfold newProfileBuilder
  rw [readMapping_sample]

end Rprof

namespace Rprof

/-- C2: for every size `s ≥ 1` (in `int` range), the bucket exponent
`b = nextPowerOfTwo s` is the smallest exponent with `2^b ≥ s` (so
`2^b ≥ s` and, for `b ≥ 1`, `2^(b-1) < s`); sizes 0 and 1 both map to
bucket 0, and `nextPowerOfTwo` maps 1↦0, 2↦1, 4↦2, 14↦4, 31↦5. -/
theorem nextPowerOfTwo_spec :
    (∀ s : Int, 1 ≤ s → s < 2 ^ 63 →
        s ≤ 2 ^ nextPowerOfTwo s
      ∧ (1 ≤ nextPowerOfTwo s → 2 ^ (nextPowerOfTwo s - 1) < s)
      ∧ (∀ c : Nat, s ≤ 2 ^ c → nextPowerOfTwo s ≤ c))
  ∧ nextPowerOfTwo 0 = 0 ∧ nextPowerOfTwo 1 = 0
  ∧ nextPowerOfTwo 2 = 1 ∧ nextPowerOfTwo 4 = 2
  ∧ nextPowerOfTwo 14 = 4 ∧ nextPowerOfTwo 31 = 5 := by
  refine ⟨?_, by decide, by decide, by decide, by decide, by decide, by decide⟩
  intro s h1 h63
  obtain ⟨hlt, hle⟩ := nextPowLoop_spec s 63 0 rfl (by intro j hj; omega)
  have hup : s ≤ 2 ^ nextPowerOfTwo s := by
    rcases hle with hle | hle
    · exact hle
    · rw [nextPowerOfTwo, hle]; exact le_of_lt h63
  refine ⟨hup, ?_, ?_⟩
  · intro hb1
    exact hlt (nextPowerOfTwo s - 1) (Nat.sub_lt (by omega) Nat.one_pos)
  · intro c hc
    by_contra hcb
    push_neg at hcb
    exact absurd hc (not_le.mpr (hlt c hcb))

/-- Witness for C2 at `s = 14`. -/
theorem nextPowerOfTwo_spec_witness :
    (1 ≤ (14 : Int)) ∧ ((14 : Int) < 2 ^ 63)
    ∧ (14 : Int) ≤ 2 ^ nextPowerOfTwo 14 ∧ nextPowerOfTwo 14 = 4 :=
  ⟨by decide, by decide, (nextPowerOfTwo_spec.1 14 (by decide) (by decide)).1,
   nextPowerOfTwo_spec.2.2.2.2.2.1⟩

/-- C7: `Start` fails with `alreadyStarted` iff a window is open
(`startTime ≠ 0`) and leaves the state untouched on failure; `Stop`
fails with `notStarted` (and yields no profile) iff no window is open,
and leaves the state untouched on failure. -/
theorem start_stop_errors :
    ∀ (p : State) (now : Int) (known : List KnownMapping),
      ((start p now).1 = some Err.alreadyStarted ↔ p.startTime ≠ 0)
    ∧ ((start p now).1 = none ↔ p.startTime = 0)
    ∧ (p.startTime ≠ 0 → (start p now).2 = p)
    ∧ ((stop p now known).1 = Except.error Err.notStarted ↔ p.startTime = 0)
    ∧ ((∃ prof, (stop p now known).1 = Except.ok prof) ↔ p.startTime ≠ 0)
    ∧ (p.startTime = 0 → (stop p now known).2 = p) := by
  intro p now known
  by_cases h : p.startTime = 0 <;> simp [start, stop, h]

/-- Witness for C7: a second `Start` on a running profiler leaves the
state untouched. -/
theorem start_stop_errors_witness :
    ((State.mk 5 []).startTime ≠ 0) ∧ (start (State.mk 5 []) 7).2 = State.mk 5 [] :=
  ⟨by decide, (start_stop_errors (State.mk 5 []) 7 []).2.2.1 (by decide)⟩

/-- C8: `recordSample` while the profiler is not running — including on
a fresh profiler before any `Start` — is a total no-op on the state and
signals nothing. -/
theorem record_not_running :
    ∀ (p : State) (size : Int) (stack : List Nat),
      (p.startTime = 0 → recordSample p size stack = p)
    ∧ recordSample newProfiler size stack = newProfiler := by
  intro p size stack
  constructor
  · intro h; simp [recordSample, h]
  · simp [recordSample, newProfiler]

/-- Witness for C8 on a fresh profiler. -/
theorem record_not_running_witness :
    (newProfiler.startTime = 0) ∧ recordSample newProfiler 3 [1] = newProfiler :=
  ⟨rfl, (record_not_running newProfiler 3 [1]).1 rfl⟩

/-- C1: after `Start`, `N ≥ 1` calls to `recordSample` with size 4096
and an identical stack (any interleaving of identical calls is the same
serialization) leave exactly one sample entry, and the profile returned
by `Stop` has exactly one sample, with values count `N` and bytes
`4096 * N` and the 4096-byte bucket label. -/
theorem record_aggregation_exact :
    ∀ (N : Nat) (t now : Int) (stack : List Nat) (known : List KnownMapping),
      1 ≤ N → t ≠ 0 →
      ∃ prof : Profile,
        (stop ((List.replicate N ((4096 : Int), stack)).foldl
            (fun st r => recordSample st r.1 r.2) (start newProfiler t).2) now known).1
          = Except.ok prof
        ∧ prof.sample.length = 1
        ∧ prof.sample.map (fun s => (s.value, s.label))
            = [([(N : Int), 4096 * (N : Int)],
                [{ key := 4, num := 4096 : Label }])] := by
  intro N t now stack known hN ht
  obtain ⟨n, rfl⟩ : ∃ n, N = n + 1 := ⟨N - 1, by omega⟩
  have hstart : (start newProfiler t).2 = State.mk t [] := by
    simp [start, newProfiler]
  rw [hstart, foldl_recordSample_run _ (State.mk t []) ht]
  have hagg : (List.replicate (n + 1) ((4096 : Int), stack)).foldl
      (fun m r => bump m r.1 r.2) (State.mk t []).samples
      = [(mkKey stack 4096, ((n : Int) + 1, ((n : Int) + 1) * 4096))] :=
    aggregate_replicate 4096 stack n
  have hbucket : (mkKey stack 4096).sizeBucketPower = 12 := rfl
  have hlabel : i64 (2 ^ 12) = 4096 := by decide
  simp only [hagg, stop]
  rw [if_neg ht]
  refine ⟨_, rfl, ?_, ?_⟩
  · have hv := build_values (newProfileBuilder t (now - t) known)
      [(mkKey stack 4096, ((n : Int) + 1, ((n : Int) + 1) * 4096))]
    rw [newProfileBuilder_sample] at hv
    have : ((build (newProfileBuilder t (now - t) known)
        [(mkKey stack 4096, ((n : Int) + 1, ((n : Int) + 1) * 4096))]).sample.map
        (fun s => (s.value, s.label))).length = 1 := by rw [hv]; simp
    simpa using this
  · have hv := build_values (newProfileBuilder t (now - t) known)
      [(mkKey stack 4096, ((n : Int) + 1, ((n : Int) + 1) * 4096))]
    rw [newProfileBuilder_sample] at hv
    rw [hv]
    simp only [List.nil_append, List.map_cons, List.map_nil, hbucket, hlabel]
    push_cast
    ring_nf

/-- Witness for C1 at `N = 2`. -/
theorem record_aggregation_exact_witness :
    (1 ≤ 2) ∧ ((5 : Int) ≠ 0) ∧
    ∃ prof : Profile,
      (stop ((List.replicate 2 ((4096 : Int), [10, 20])).foldl
          (fun st r => recordSample st r.1 r.2) (start newProfiler 5).2) 9 []).1
        = Except.ok prof
      ∧ prof.sample.length = 1
      ∧ prof.sample.map (fun s => (s.value, s.label))
          = [([(2 : Int), 4096 * (2 : Int)],
              [{ key := 4, num := 4096 : Label }])] :=
  ⟨by decide, by decide,
   record_aggregation_exact 2 5 9 [10, 20] [] (by decide) (by decide)⟩

end Rprof

namespace Rprof

theorem mkKey_ne (stack : List Nat) {a b : Int}
    (h : nextPowerOfTwo a ≠ nextPowerOfTwo b) : mkKey stack a ≠ mkKey stack b :=
  fun he => h (congrArg sampleKey.sizeBucketPower he)

theorem mkKey_eq (stack : List Nat) {a b : Int}
    (h : nextPowerOfTwo a = nextPowerOfTwo b) : mkKey stack a = mkKey stack b := by
  simp [mkKey, h]

/-- C3 (code evaluation): for a sample key holding a single valid
address 5 (`numLocations = 1`, zero-filled tail), `build` emits a
sample whose `locationIndex` has all 128 slots — id 1 for address 5
followed by 127 copies of id 2, the location allocated for address 0 —
instead of only the first `numLocations` ids. -/
theorem build_emits_all_slots :
    (mkKey [5] 1).numLocations = 1 ∧
    ((build (newProfileBuilder 1 1 []) [(mkKey [5] 1, (1, 1))]).sample.map
        fun s => s.locationIndex) = [1 :: List.replicate 127 2] := by decide

/-- C6 (code evaluation): with no known code regions, the synthetic
mapping is `[0, 2^63)`, not the full address space: the representable
address `2^63` resolves to mapping id 0 while address 0 resolves to the
synthetic mapping id 1. -/
theorem fake_mapping_not_full_range :
    ((newProfileBuilder 1 1 []).mapping.map fun m => (m.memoryStart, m.memoryLimit))
        = [(0, 2 ^ 63)]
    ∧ findMapping (newProfileBuilder 1 1 []).mapping (2 ^ 63) = 0
    ∧ ((build (newProfileBuilder 1 1 []) [(mkKey [2 ^ 63] 1, (1, 1))]).location.map
        fun l => (l.address, l.mappingIndex)) = [(2 ^ 63, 0), (0, 1)]
    ∧ (2 ^ 63 : Nat) < 2 ^ 64 := by decide

/-- C4 counterexample: sizes 100 and 200 do NOT share bucket exponent
8 — 100 buckets to 7 — so two records with the same stack and sizes
100, 200 yield two sample entries, not one merged entry. -/
theorem sizes_100_200_counterexample :
    nextPowerOfTwo 100 = 7 ∧ nextPowerOfTwo 200 = 8 ∧
    ((stop (recordSample (recordSample (start newProfiler 1).2 100 [7]) 200 [7]) 2 []).1.toOption.map
        fun p => p.sample.length) = some 2 := by decide

/-- C4 (amended): with the same stack, sizes 100 and 200 bucket to
exponents 7 and 8 and give separate samples; sizes 200 and 256 share
exponent 8 and merge into one sample with count 2 and byte sum 456;
size 5000 (exponent 13) gives a further separate sample. -/
theorem sizes_bucketed_amended :
    ∀ (t now : Int) (stack : List Nat) (known : List KnownMapping), t ≠ 0 →
      ((stop (recordSample (recordSample (recordSample (recordSample
            (start newProfiler t).2 100 stack) 200 stack) 256 stack) 5000 stack)
          now known).1.toOption.map
        fun p => p.sample.map fun s => (s.value, s.label))
      = some [([1, 100], [{ key := 4, num := 128 : Label }]),
              ([2, 456], [{ key := 4, num := 256 : Label }]),
              ([1, 5000], [{ key := 4, num := 8192 : Label }])] := by
  intro t now stack known ht
  have hstart : (start newProfiler t).2 = State.mk t [] := by
    simp [start, newProfiler]
  have h12 : mkKey stack 100 ≠ mkKey stack 200 := mkKey_ne stack (by decide)
  have h13 : mkKey stack 100 ≠ mkKey stack 5000 := mkKey_ne stack (by decide)
  have h23 : mkKey stack 200 ≠ mkKey stack 5000 := mkKey_ne stack (by decide)
  have h256 : mkKey stack 256 = mkKey stack 200 := mkKey_eq stack (by decide)
  have hm1 : recordSample (State.mk t []) 100 stack
      = State.mk t [(mkKey stack 100, (1, 100))] := by
    rw [recordSample_run _ _ _ ht]
    simp [bump, lookupSamples, setSample]
  have hm2 : recordSample (State.mk t [(mkKey stack 100, (1, 100))]) 200 stack
      = State.mk t [(mkKey stack 100, (1, 100)), (mkKey stack 200, (1, 200))] := by
    rw [recordSample_run _ _ _ ht]
    simp [bump, lookupSamples, setSample, h12]
  have hm3 : recordSample
        (State.mk t [(mkKey stack 100, (1, 100)), (mkKey stack 200, (1, 200))]) 256 stack
      = State.mk t [(mkKey stack 100, (1, 100)), (mkKey stack 200, (2, 456))] := by
    rw [recordSample_run _ _ _ ht]
    simp [bump, h256, lookupSamples, setSample, h12]
  have hm4 : recordSample
        (State.mk t [(mkKey stack 100, (1, 100)), (mkKey stack 200, (2, 456))]) 5000 stack
      = State.mk t [(mkKey stack 100, (1, 100)), (mkKey stack 200, (2, 456)),
                    (mkKey stack 5000, (1, 5000))] := by
    rw [recordSample_run _ _ _ ht]
    simp [bump, lookupSamples, setSample, h13, h23]
  rw [hstart, hm1, hm2, hm3, hm4]
  simp only [stop]
  rw [if_neg ht]
  have hv := build_values (newProfileBuilder t (now - t) known)
      [(mkKey stack 100, (1, 100)), (mkKey stack 200, (2, 456)),
       (mkKey stack 5000, (1, 5000))]
  rw [newProfileBuilder_sample] at hv
  simp only [Except.toOption]
  rw [Option.map_some', hv]
  have e1 : (mkKey stack 100).sizeBucketPower = 7 := rfl
  have e2 : (mkKey stack 200).sizeBucketPower = 8 := rfl
  have e3 : (mkKey stack 5000).sizeBucketPower = 13 := rfl
  simp only [List.nil_append, List.map_cons, List.map_nil, e1, e2, e3]
  norm_num [i64]

/-- Witness for the amended C4 at a concrete stack and times. -/
theorem sizes_bucketed_amended_witness :
    ((1 : Int) ≠ 0) ∧
    ((stop (recordSample (recordSample (recordSample (recordSample
          (start newProfiler 1).2 100 [7]) 200 [7]) 256 [7]) 5000 [7])
        2 []).1.toOption.map
      fun p => p.sample.map fun s => (s.value, s.label))
    = some [([1, 100], [{ key := 4, num := 128 : Label }]),
            ([2, 456], [{ key := 4, num := 256 : Label }]),
            ([1, 5000], [{ key := 4, num := 8192 : Label }])] :=
  ⟨by decide, sizes_bucketed_amended 1 2 [7] [] (by decide)⟩

/-- C10: the read adapters pass the underlying reader's `(n, err)`
result through unchanged, `ReadAt` updates the profiler exactly as
`Read` does, and while running every invocation — error or not, `n = 0`
included — bumps the stack key's counters by `(1, n)`; size 0 buckets
to exponent 0. -/
theorem reader_records_unconditionally :
    ∀ {ε : Type} (p : State) (off n : Int) (err : Option ε) (stack : List Nat),
      (readerRead p n err stack).1 = (n, err)
    ∧ (readerAtReadAt p off n err stack).1 = (n, err)
    ∧ (readerAtReadAt p off n err stack).2 = (readerRead p n err stack).2
    ∧ (p.startTime ≠ 0 →
        lookupSamples (readerRead p n err stack).2.samples (mkKey stack n)
          = ((lookupSamples p.samples (mkKey stack n)).1 + 1,
             (lookupSamples p.samples (mkKey stack n)).2 + n))
    ∧ (mkKey stack 0).sizeBucketPower = 0 := by
  intro ε p off n err stack
  refine ⟨rfl, rfl, rfl, ?_, rfl⟩
  intro h
  rw [show (readerRead p n err stack).2 = recordSample p n stack from rfl,
      recordSample_run p n stack h]
  simp only [bump]
  exact lookupSamples_setSample p.samples (mkKey stack n) _

/-- Witness for C10: a zero-byte `Read` with an error on a running
profiler. -/
theorem reader_records_unconditionally_witness :
    ((State.mk 1 []).startTime ≠ 0) ∧
    lookupSamples (readerRead (State.mk 1 []) 0 (some ()) [4]).2.samples (mkKey [4] 0)
      = ((lookupSamples (State.mk 1 []).samples (mkKey [4] 0)).1 + 1,
         (lookupSamples (State.mk 1 []).samples (mkKey [4] 0)).2 + 0) :=
  ⟨by decide,
   (reader_records_unconditionally (State.mk 1 []) 9 0 (some ()) [4]).2.2.2.1 (by decide)⟩

end Rprof

namespace Rprof

/-- The mapping table's ids are the 1-based positions, starting from
position `i` (offset form for induction). -/
def idsFrom : List Mapping → Nat → Prop
  | [], _ => True
  | m :: rest, i => m.id = i + 1 ∧ idsFrom rest (i + 1)

theorem idsFrom_append_one :
    ∀ (ms : List Mapping) (i : Nat) (m : Mapping),
      idsFrom ms i → m.id = i + ms.length + 1 → idsFrom (ms ++ [m]) i := by
  intro ms
  induction ms with
  | nil => intro i m _ hid; exact ⟨by simpa using hid, trivial⟩
  | cons hd tl ih =>
      intro i m hseq hid
      exact ⟨hseq.1, ih (i + 1) m hseq.2 (by simp at hid ⊢; omega)⟩

theorem idsFrom_extract :
    ∀ (ms : List Mapping) (i r : Nat),
      idsFrom ms i → i < r → r ≤ i + ms.length → ∃ m ∈ ms, m.id = r := by
  intro ms
  induction ms with
  | nil => intro i r _ hlt hle; simp at hle; omega
  | cons hd tl ih =>
      intro i r hseq hlt hle
      by_cases hr : r = i + 1
      · exact ⟨hd, List.mem_cons_self hd tl, by rw [hseq.1, hr]⟩
      · obtain ⟨m, hm, hid⟩ :=
          ih (i + 1) r hseq.2 (by omega) (by simp at hle; omega)
        exact ⟨m, List.mem_cons_of_mem hd hm, hid⟩

theorem addString_mapping (p : Profile) (s : String) :
    (addString p s).1.mapping = p.mapping := rfl

theorem addMappingEntry_ids (p : Profile) (lo hi offset : Nat)
    (file buildID : String) (fake : Bool) (h : idsFrom p.mapping 0) :
    idsFrom (addMappingEntry p lo hi offset file buildID fake).mapping 0 := by
  unfold addMappingEntry
  cases fake
  · simp only [Bool.false_eq_true, if_false]
    exact idsFrom_append_one p.mapping 0 _ h (by simp [addString])
  · simp only [if_true]
    exact idsFrom_append_one p.mapping 0 _ h (by simp)

theorem foldl_addMapping_ids (known : List KnownMapping) :
    ∀ p : Profile, idsFrom p.mapping 0 →
      idsFrom (known.foldl
        (fun acc m => addMapping acc m.lo m.hi m.offset m.file m.buildID) p).mapping 0 := by
  induction known with
  | nil => intro p h; exact h
  | cons m rest ih =>
      intro p h
      exact ih _ (addMappingEntry_ids p _ _ _ _ _ _ h)

theorem newProfileBuilder_ids (ts dur : Int) (known : List KnownMapping) :
    idsFrom (newProfileBuilder ts dur known).mapping 0 := by
  unfold newProfileBuilder readMapping
  by_cases h : known.isEmpty
  · simp only [h, if_true]
    exact addMappingEntry_ids _ _ _ _ _ _ _ trivial
  · simp only [h, if_false]
    exact foldl_addMapping_ids known _ trivial

theorem addMappingEntry_location (p : Profile) (lo hi offset : Nat)
    (file buildID : String) (fake : Bool) :
    (addMappingEntry p lo hi offset file buildID fake).location = p.location := by
  unfold addMappingEntry
  cases fake <;> simp [addString]

theorem foldl_addMapping_location (known : List KnownMapping) :
    ∀ p : Profile,
      (known.foldl (fun acc m => addMapping acc m.lo m.hi m.offset m.file m.buildID) p).location
        = p.location := by
  induction known with
  | nil => intro p; rfl
  | cons m rest ih =>
      intro p
      simp only [List.foldl_cons]
      rw [ih]
      simp [addMapping, addMappingEntry_location]

theorem newProfileBuilder_location (ts dur : Int) (known : List KnownMapping) :
    (newProfileBuilder ts dur known).location = [] := by
  unfold newProfileBuilder readMapping
  by_cases h : known.isEmpty
  · rw [if_pos h, addMappingEntry_location]
  · rw [if_neg h, foldl_addMapping_location]

theorem findMappingFrom_bound (addr : Nat) :
    ∀ (ms : List Mapping) (i : Nat),
      findMappingFrom ms addr i = 0 ∨
        (i < findMappingFrom ms addr i ∧ findMappingFrom ms addr i ≤ i + ms.length) := by
  intro ms
  induction ms with
  | nil => intro i; left; rfl
  | cons m rest ih =>
      intro i
      unfold findMappingFrom
      by_cases h : m.memoryStart ≤ addr ∧ addr < m.memoryLimit
      · right
        rw [if_pos h]
        constructor
        · omega
        · simp only [List.length_cons]; omega
      · rw [if_neg h]
        rcases ih (i + 1) with h0 | ⟨hlt, hle⟩
        · left; exact h0
        · right
          refine ⟨by omega, ?_⟩
          simp only [List.length_cons]
          omega

theorem lookupLoc_mem :
    ∀ (li : List (Nat × Nat)) (addr idx : Nat),
      lookupLoc li addr = some idx → (addr, idx) ∈ li := by
  intro li
  induction li with
  | nil => intro addr idx h; simp [lookupLoc] at h
  | cons hd tl ih =>
      intro addr idx h
      obtain ⟨a, i⟩ := hd
      by_cases ha : a = addr
      · subst ha
        simp [lookupLoc] at h
        subst h
        exact List.mem_cons_self _ _
      · simp [lookupLoc, ha] at h
        exact List.mem_cons_of_mem _ (ih addr idx h)

end Rprof

namespace Rprof

/-- Invariant carried through `build`'s fold: every id in `locIdx` and
in every emitted sample names a location in the table, and every
location's nonzero mapping id names a mapping entry. -/
def locInv (st : List (Nat × Nat) × Profile) : Prop :=
  (∀ pr ∈ st.1, ∃ l ∈ st.2.location, l.id = pr.2)
  ∧ (∀ s ∈ st.2.sample, ∀ i ∈ s.locationIndex, ∃ l ∈ st.2.location, l.id = i)
  ∧ (∀ l ∈ st.2.location, l.mappingIndex ≠ 0 → ∃ m ∈ st.2.mapping, m.id = l.mappingIndex)

theorem addLoc_spec (st : List (Nat × Nat) × Profile) (loc : Nat)
    (hids : idsFrom st.2.mapping 0) (hinv : locInv st) :
    locInv (addLoc st loc).1
    ∧ (∃ l ∈ (addLoc st loc).1.2.location, l.id = (addLoc st loc).2)
    ∧ (∀ l ∈ st.2.location, l ∈ (addLoc st loc).1.2.location)
    ∧ (addLoc st loc).1.2.sample = st.2.sample
    ∧ (addLoc st loc).1.2.mapping = st.2.mapping := by
  obtain ⟨h1, h2, h3⟩ := hinv
  cases hl : lookupLoc st.1 loc with
  | some idx =>
      have ha : addLoc st loc = (st, idx) := by unfold addLoc; rw [hl]
      rw [ha]
      exact ⟨⟨h1, h2, h3⟩, h1 (loc, idx) (lookupLoc_mem st.1 loc idx hl),
        fun l h => h, rfl, rfl⟩
  | none =>
      have ha : addLoc st loc =
          ((st.1 ++ [(loc, st.1.length + 1)],
            { st.2 with location := st.2.location ++
                [{ id := st.1.length + 1,
                   mappingIndex := findMapping st.2.mapping loc,
                   address := loc }] }),
           st.1.length + 1) := by unfold addLoc; rw [hl]
      rw [ha]
      refine ⟨⟨?_, ?_, ?_⟩, ?_, ?_, rfl, rfl⟩
      · intro pr hpr
        rcases List.mem_append.mp hpr with hpr | hpr
        · obtain ⟨l, hm, hid⟩ := h1 pr hpr
          exact ⟨l, List.mem_append.mpr (Or.inl hm), hid⟩
        · rw [List.mem_singleton.mp hpr]
          exact ⟨_, List.mem_append.mpr (Or.inr (List.mem_singleton.mpr rfl)), rfl⟩
      · intro s hs i hi
        obtain ⟨l, hm, hid⟩ := h2 s hs i hi
        exact ⟨l, List.mem_append.mpr (Or.inl hm), hid⟩
      · intro l hlm hne
        rcases List.mem_append.mp hlm with hlm | hlm
        · exact h3 l hlm hne
        · rw [List.mem_singleton.mp hlm] at hne ⊢
          simp only at hne ⊢
          rcases findMappingFrom_bound loc st.2.mapping 0 with h0 | ⟨hlt, hle⟩
          · exact absurd h0 hne
          · exact idsFrom_extract st.2.mapping 0 (findMapping st.2.mapping loc)
              hids hlt (by simpa using hle)
      · exact ⟨_, List.mem_append.mpr (Or.inr (List.mem_singleton.mpr rfl)), rfl⟩
      · intro l hl
        exact List.mem_append.mpr (Or.inl hl)

theorem addLocs_spec (locs : List Nat) :
    ∀ st : List (Nat × Nat) × Profile, idsFrom st.2.mapping 0 → locInv st →
      locInv (addLocs st locs).1
      ∧ (∀ i ∈ (addLocs st locs).2,
          ∃ l ∈ (addLocs st locs).1.2.location, l.id = i)
      ∧ (∀ l ∈ st.2.location, l ∈ (addLocs st locs).1.2.location)
      ∧ (addLocs st locs).1.2.sample = st.2.sample
      ∧ (addLocs st locs).1.2.mapping = st.2.mapping := by
  induction locs with
  | nil =>
      intro st hids hinv
      exact ⟨hinv, by simp [addLocs], fun l h => h, rfl, rfl⟩
  | cons loc rest ih =>
      intro st hids hinv
      obtain ⟨hinv1, hwit, hmono1, hsamp1, hmap1⟩ := addLoc_spec st loc hids hinv
      have hids1 : idsFrom (addLoc st loc).1.2.mapping 0 := by rw [hmap1]; exact hids
      obtain ⟨hinv2, hall2, hmono2, hsamp2, hmap2⟩ := ih (addLoc st loc).1 hids1 hinv1
      have heq : addLocs st (loc :: rest)
          = ((addLocs (addLoc st loc).1 rest).1,
             (addLoc st loc).2 :: (addLocs (addLoc st loc).1 rest).2) := rfl
      rw [heq]
      refine ⟨hinv2, ?_, ?_, by rw [hsamp2, hsamp1], by rw [hmap2, hmap1]⟩
      · intro i hi
        rcases List.mem_cons.mp hi with hi | hi
        · subst hi
          obtain ⟨l, hm, hid⟩ := hwit
          exact ⟨l, hmono2 l hm, hid⟩
        · exact hall2 i hi
      · intro l hl
        exact hmono2 l (hmono1 l hl)

theorem buildStep_spec (acc : List (Nat × Nat) × Profile)
    (kv : sampleKey × Int × Int)
    (hids : idsFrom acc.2.mapping 0) (hinv : locInv acc) :
    locInv (buildStep acc kv) ∧ (buildStep acc kv).2.mapping = acc.2.mapping := by
  obtain ⟨hinv', hall, hmono, hsamp, hmap⟩ := addLocs_spec kv.1.locations acc hids hinv
  obtain ⟨g1, g2, g3⟩ := hinv'
  constructor
  · refine ⟨?_, ?_, ?_⟩
    · intro pr hpr
      exact g1 pr hpr
    · intro s hs i hi
      rcases List.mem_append.mp hs with hs | hs
      · exact g2 s hs i hi
      · rw [List.mem_singleton.mp hs] at hi
        exact hall i hi
    · intro l hl hne
      exact g3 l hl hne
  · exact hmap

theorem foldl_buildStep_inv (l : List (sampleKey × Int × Int)) :
    ∀ acc : List (Nat × Nat) × Profile, idsFrom acc.2.mapping 0 → locInv acc →
      locInv (l.foldl buildStep acc)
      ∧ (l.foldl buildStep acc).2.mapping = acc.2.mapping := by
  induction l with
  | nil => intro acc _ hinv; exact ⟨hinv, rfl⟩
  | cons kv rest ih =>
      intro acc hids hinv
      obtain ⟨hinv1, hmap1⟩ := buildStep_spec acc kv hids hinv
      have hids1 : idsFrom (buildStep acc kv).2.mapping 0 := by rw [hmap1]; exact hids
      obtain ⟨hinv2, hmap2⟩ := ih (buildStep acc kv) hids1 hinv1
      exact ⟨hinv2, by rw [List.foldl_cons, hmap2, hmap1]⟩

/-- C5: referential integrity of the built profile — every location id
referenced from any emitted sample names an entry of the location
table, and every location's nonzero mapping id names an entry of the
mapping table, for every input sample map. -/
theorem build_referential_integrity :
    ∀ (ts dur : Int) (known : List KnownMapping)
      (samples : List (sampleKey × Int × Int)),
      (∀ s ∈ (build (newProfileBuilder ts dur known) samples).sample,
          ∀ i ∈ s.locationIndex,
            ∃ l ∈ (build (newProfileBuilder ts dur known) samples).location, l.id = i)
      ∧ (∀ l ∈ (build (newProfileBuilder ts dur known) samples).location,
          l.mappingIndex ≠ 0 →
            ∃ m ∈ (build (newProfileBuilder ts dur known) samples).mapping,
              m.id = l.mappingIndex) := by
  intro ts dur known samples
  have hids : idsFrom ((([] : List (Nat × Nat)),
      newProfileBuilder ts dur known) : List (Nat × Nat) × Profile).2.mapping 0 :=
    newProfileBuilder_ids ts dur known
  have hinv : locInv (([] : List (Nat × Nat)), newProfileBuilder ts dur known) := by
    refine ⟨by simp, ?_, ?_⟩
    · intro s hs
      rw [newProfileBuilder_sample] at hs
      simp at hs
    · intro l hl
      rw [newProfileBuilder_location] at hl
      simp at hl
  obtain ⟨⟨_, h2, h3⟩, _⟩ :=
    foldl_buildStep_inv samples ([], newProfileBuilder ts dur known) hids hinv
  exact ⟨h2, h3⟩

/-- Witness for C5: in a concrete build, the address-0 location's
mapping id 1 names the synthetic mapping. -/
theorem build_referential_integrity_witness :
    ∃ m ∈ (build (newProfileBuilder 1 1 []) [(mkKey [5] 1, (1, 1))]).mapping,
      m.id = (Location.mk 2 1 0).mappingIndex :=
  (build_referential_integrity 1 1 [] [(mkKey [5] 1, (1, 1))]).2
    (Location.mk 2 1 0) (by decide) (by decide)

end Rprof

namespace Rprof

theorem runTrace_records (known : List KnownMapping) (recs : List (Int × List Nat)) :
    ∀ (p : State) (rest : List Op), p.startTime ≠ 0 →
      runTrace known p ((recs.map fun r => Op.opRecord r.1 r.2) ++ rest)
        = runTrace known
            { p with samples := recs.foldl (fun m r => bump m r.1 r.2) p.samples } rest := by
  induction recs with
  | nil => intro p rest _; simp
  | cons r tail ih =>
      intro p rest hp
      have hstep : runTrace known p
            ((List.map (fun r => Op.opRecord r.1 r.2) (r :: tail)) ++ rest)
          = runTrace known (recordSample p r.1 r.2)
              ((List.map (fun r => Op.opRecord r.1 r.2) tail) ++ rest) := rfl
      rw [hstep, recordSample_run p r.1 r.2 hp,
          ih { p with samples := bump p.samples r.1 r.2 } rest hp,
          List.foldl_cons]

/-- One profiling window inside a serialization: `Start`, the window's
records, `Stop`, then anything else. -/
theorem runTrace_window (known : List KnownMapping) (recs : List (Int × List Nat))
    (t u : Int) (ht : t ≠ 0) (m0 : List (sampleKey × Int × Int)) (rest : List Op) :
    runTrace known (State.mk 0 m0)
        (Op.opStart t :: ((recs.map fun r => Op.opRecord r.1 r.2) ++ Op.opStop u :: rest))
      = ((runTrace known (State.mk 0 (aggregate recs)) rest).1,
         some (build (newProfileBuilder t (u - t) known) (aggregate recs))
           :: (runTrace known (State.mk 0 (aggregate recs)) rest).2) := by
  have hstep : runTrace known (State.mk 0 m0)
        (Op.opStart t :: ((recs.map fun r => Op.opRecord r.1 r.2) ++ Op.opStop u :: rest))
      = runTrace known (start (State.mk 0 m0) t).2
          ((recs.map fun r => Op.opRecord r.1 r.2) ++ Op.opStop u :: rest) := rfl
  have hs : (start (State.mk 0 m0) t).2 = State.mk t [] := by simp [start]
  rw [hstep, hs, runTrace_records known recs (State.mk t []) _ ht]
  have hagg : ({ State.mk t [] with
        samples := recs.foldl (fun m r => bump m r.1 r.2) (State.mk t []).samples } : State)
      = State.mk t (aggregate recs) := rfl
  rw [hagg]
  have hstop : stop (State.mk t (aggregate recs)) u known
      = (Except.ok (build (newProfileBuilder t (u - t) known) (aggregate recs)),
         State.mk 0 (aggregate recs)) := by
    simp only [stop]
    rw [if_neg ht]
  show ((runTrace known (stop (State.mk t (aggregate recs)) u known).2 rest).1,
        (stop (State.mk t (aggregate recs)) u known).1.toOption
          :: (runTrace known (stop (State.mk t (aggregate recs)) u known).2 rest).2) = _
  rw [hstop]
  rfl

/-- C9 counterexample: a record serialized after a `Stop` and before
the next `Start` lands in neither window — both stops return profiles
with zero samples — so a racing record can be lost, not merely shifted
to the closing or the next window. -/
theorem record_between_windows_lost :
    ((runTrace [] newProfiler
        [Op.opStart 1, Op.opStop 2, Op.opRecord 7 [3], Op.opStart 4, Op.opStop 5]).2.map
      fun o => o.map fun p => p.sample.length) = [some 0, some 0] := by decide

/-- C9 (amended): in the serialization model of the single mutex, every
record inside a window (after its `Start`, before its `Stop`) is
included in exactly that window's profile: two back-to-back windows
yield exactly the profiles of their own aggregated records, with no
loss inside a window and no double count across windows; a record
serialized while no window is open is dropped as a silent no-op. -/
theorem window_isolation_amended :
    ∀ (known : List KnownMapping) (recs1 recs2 : List (Int × List Nat))
      (t1 t2 t3 t4 : Int), t1 ≠ 0 → t3 ≠ 0 →
      (runTrace known newProfiler
          (Op.opStart t1 :: ((recs1.map fun r => Op.opRecord r.1 r.2)
            ++ Op.opStop t2 :: Op.opStart t3 :: ((recs2.map fun r => Op.opRecord r.1 r.2)
              ++ Op.opStop t4 :: [])))
        = (State.mk 0 (aggregate recs2),
           [some (build (newProfileBuilder t1 (t2 - t1) known) (aggregate recs1)),
            some (build (newProfileBuilder t3 (t4 - t3) known) (aggregate recs2))]))
      ∧ (∀ (p : State) (size : Int) (stack : List Nat),
          p.startTime = 0 → recordSample p size stack = p) := by
  intro known recs1 recs2 t1 t2 t3 t4 h1 h3
  constructor
  · rw [show newProfiler = State.mk 0 [] from rfl]
    rw [runTrace_window known recs1 t1 t2 h1 []
        (Op.opStart t3 :: ((recs2.map fun r => Op.opRecord r.1 r.2) ++ Op.opStop t4 :: []))]
    rw [runTrace_window known recs2 t3 t4 h3 (aggregate recs1) []]
    rfl
  · intro p size stack h
    simp [recordSample, h]

/-- Witness for the amended C9 with one record in the first window and
none in the second. -/
theorem window_isolation_amended_witness :
    ((1 : Int) ≠ 0) ∧ ((3 : Int) ≠ 0) ∧
    runTrace [] newProfiler
        (Op.opStart 1 :: (([((4096 : Int), [9])].map fun r => Op.opRecord r.1 r.2)
          ++ Op.opStop 2 :: Op.opStart 3 :: ((([] : List (Int × List Nat)).map
              (fun r => Op.opRecord r.1 r.2))
            ++ Op.opStop 4 :: [])))
      = (State.mk 0 (aggregate []),
         [some (build (newProfileBuilder 1 (2 - 1) []) (aggregate [((4096 : Int), [9])])),
          some (build (newProfileBuilder 3 (4 - 3) []) (aggregate []))]) :=
  ⟨by decide, by decide,
   (window_isolation_amended [] [((4096 : Int), [9])] [] 1 2 3 4 (by decide) (by decide)).1⟩

end Rprof
